import Mathlib

/-!
Verification of the greedy circle-packing core of `mkbubble`
(`src/mkbubble/src/main.rs`).

The Rust code works on `u32` pixel coordinates that are cast to `i32`
(`as i32`, a wrapping cast) inside the disc-geometry primitives.  We model
pixel coordinates as natural numbers that stand for `u32` values and model
the wrapping cast explicitly (`asI32`); all `i32` arithmetic performed after
the casts is modelled exactly over `ℤ`, which coincides with the source for
every input on which the source's `i32` arithmetic does not overflow.
-/

set_option maxRecDepth 4000

namespace Mkbubble

/-- A pixel coordinate, mirroring `struct Pixel { x: u32, y: u32 }`.
Fields stand for `u32` values. -/
structure Pixel where
  x : Nat
  y : Nat
deriving DecidableEq

/-- A circle, mirroring `struct Circle { x: u32, y: u32, r: u32 }`. -/
structure Circle where
  x : Nat
  y : Nat
  r : Nat
deriving DecidableEq

/-- `const MAX_RADIUS: u32 = 25;` -/
def MAX_RADIUS : Nat := 25

/-- The Rust `u32 -> i32` conversion `n as i32`: a wrapping cast. -/
def asI32 (n : Nat) : Int := ((n : Int) + 2 ^ 31) % 2 ^ 32 - 2 ^ 31

/-- The Rust inclusive range `a..=b` over `i32`, as a list (empty when `b < a`). -/
def intRange (a b : Int) : List Int :=
  (List.range (b + 1 - a).toNat).map fun i : Nat => (a + i : Int)

/-- `fn pixels_in_circle(cx: u32, cy: u32, r: u32) -> Vec<Pixel>`:
row-major scan of the bounding box `[-r, r] × [-r, r]`, keeping offsets inside
the disc, skipping coordinates with a negative component. -/
def pixels_in_circle (cx cy r : Nat) : List Pixel :=
  (intRange (-asI32 r) (asI32 r)).flatMap fun dy =>
    (intRange (-asI32 r) (asI32 r)).filterMap fun dx =>
      if dx * dx + dy * dy ≤ asI32 r * asI32 r then
        if asI32 cx + dx < 0 ∨ asI32 cy + dy < 0 then none
        else some ⟨(asI32 cx + dx).toNat, (asI32 cy + dy).toNat⟩
      else none

/-- `fn check_circle(valid_px: &IndexSet<Pixel>, cx: u32, cy: u32, radius: u32) -> bool`:
same scan as `pixels_in_circle`, returning `false` as soon as a disc pixel is
missing from the set (`List.all` short-circuits like the Rust `return false`). -/
def check_circle (valid_px : Finset Pixel) (cx cy radius : Nat) : Bool :=
  (intRange (-asI32 radius) (asI32 radius)).all fun dy =>
    (intRange (-asI32 radius) (asI32 radius)).all fun dx =>
      if dx * dx + dy * dy ≤ asI32 radius * asI32 radius then
        if asI32 cx + dx < 0 ∨ asI32 cy + dy < 0 then true
        else decide (Pixel.mk (asI32 cx + dx).toNat (asI32 cy + dy).toNat ∈ valid_px)
      else true

/-- The `for r in 3..=max_radius { ... }` loop of `find_biggest_circle`:
`cur` is the radius recorded so far (`circle.r`), updated to `r` after each
successful `check_circle`, with `break` on the first failure. -/
def fbcLoop (valid_px : Finset Pixel) (cx cy : Nat) (rs : List Nat) (cur : Nat) : Nat :=
  match rs with
  | [] => cur
  | r :: rest =>
    if check_circle valid_px cx cy r then fbcLoop valid_px cx cy rest r
    else cur

/-- `fn find_biggest_circle(valid_px: &IndexSet<Pixel>, cx: u32, cy: u32, max_radius: u32) -> Circle`:
starts from `Circle { x: cx, y: cy, r: 1 }` and runs the growth loop over the
radii `3..=max_radius`. -/
def find_biggest_circle (valid_px : Finset Pixel) (cx cy max_radius : Nat) : Circle :=
  { x := cx, y := cy, r := fbcLoop valid_px cx cy (List.range' 3 (max_radius - 2)) 1 }

/-- One iteration of the packing loop in `main` (lines 138–158), parametrised
by the seed selector (`compute_edt`, whose numerical kernel is the external
opencv distance transform).  Rejection (`circle.r < 3`) removes only the seed
(`mask.swap_remove(&max_point)`); acceptance pushes the circle and removes all
pixels of `pixels_in_circle(circle.x, circle.y, circle.r)`. -/
def packStep (select : Finset Pixel → Pixel) (mask : Finset Pixel) (circles : List Circle) :
    Finset Pixel × List Circle :=
  let p := select mask
  let circle := find_biggest_circle mask p.x p.y MAX_RADIUS
  if circle.r < 3 then (mask.erase p, circles)
  else (mask \ (pixels_in_circle circle.x circle.y circle.r).toFinset, circles ++ [circle])

/-- The `while mask.len() > 0` packing loop of `main`, with explicit fuel:
`packLoop select fuel mask circles` runs at most `fuel` iterations (the loop
itself has no bound; fuel lets us state that `|mask|` iterations suffice). -/
def packLoop (select : Finset Pixel → Pixel) :
    Nat → Finset Pixel → List Circle → Finset Pixel × List Circle
  | 0, mask, circles => (mask, circles)
  | fuel + 1, mask, circles =>
    if mask = ∅ then (mask, circles)
    else
      let st := packStep select mask circles
      packLoop select fuel st.1 st.2

/-- `impl Display for Circle`: `"[{},{},{}]"`. -/
def circleToString (c : Circle) : String :=
  "[" ++ toString c.x ++ "," ++ toString c.y ++ "," ++ toString c.r ++ "]"

/-- The output formatting of `main` (lines 217–229): flip `y` to
`img.height() - c.y`, render each circle, join with `","`, wrap as `"[{}],"`. -/
def formatOutput (height : Nat) (circles : List Circle) : String :=
  "[" ++ String.intercalate ","
      ((circles.map fun c => Circle.mk c.x (height - c.y) c.r).map circleToString) ++ "],"

/-- The debug-artifact pixel aggregation of `main` (lines 160–173 and 202–215):
`circles.iter().map(|e| pixels_in_circle(..)).reduce(..).unwrap()`.  Rust's
`reduce` yields `None` on an empty iterator, so `unwrap` panics when the
circle list is empty; `none` models that panic. -/
def debugCoverage (circles : List Circle) : Option (List Pixel) :=
  match circles.map fun c => pixels_in_circle c.x c.y c.r with
  | [] => none
  | l :: ls => some (ls.foldl (fun acc e => acc ++ e) l)

/-- Row-major enumeration order on pixels: strictly increasing `y`, and
strictly increasing `x` within a row. -/
def rowMajorLt (p q : Pixel) : Prop := p.y < q.y ∨ (p.y = q.y ∧ p.x < q.x)

instance : DecidableRel rowMajorLt := fun p q =>
  decidable_of_iff (p.y < q.y ∨ (p.y = q.y ∧ p.x < q.x)) Iff.rfl

/-- The output line as the specification describes it: `[x,y,r]` triples with
`y` flipped to `height - y`, joined by commas, wrapped as `[...],` with the
trailing comma.  Written from the spec's words, to be compared with
`formatOutput`, which is embedded from the source. -/
def specOutput (height : Nat) (circles : List Circle) : String :=
  "[" ++ String.intercalate ","
      (circles.map fun c =>
        "[" ++ toString c.x ++ "," ++ toString (height - c.y) ++ "," ++ toString c.r ++ "]")
    ++ "],"

/-- Lexicographic order on pixels (`x`, then `y`), mirroring `impl Ord for
Pixel` in the source. -/
instance : LinearOrder Pixel :=
  LinearOrder.lift' (fun p => toLex (p.x, p.y)) (by
    intro p q h
    cases p
    cases q
    simp only [toLex_inj, Prod.mk.injEq] at h
    simp [h.1, h.2])

/-- A computable seed selector returning the smallest member in the pixel
order: an instance of the spec's seed-selector capability (`pick-next(set) ->
coordinate | none`, which must return a member of any nonempty set). -/
def selectMin (m : Finset Pixel) : Pixel :=
  if h : m.Nonempty then m.min' h else ⟨0, 0⟩

/-- A 4×4 all-foreground patch, used as concrete test input. -/
def grid4 : Finset Pixel :=
  ((Finset.range 4) ×ˢ (Finset.range 4)).image fun q => Pixel.mk q.1 q.2

/-! ## Basic lemmas about the embedded primitives -/

theorem mem_intRange {a b t : Int} : t ∈ intRange a b ↔ a ≤ t ∧ t ≤ b := by
  simp only [intRange, List.mem_map, List.mem_range]
  constructor
  · rintro ⟨i, hi, rfl⟩
    omega
  · rintro ⟨h1, h2⟩
    exact ⟨(t - a).toNat, by omega, by omega⟩

theorem intRange_pairwise (a b : Int) : (intRange a b).Pairwise (· < ·) := by
  refine List.pairwise_map.mpr ((List.pairwise_lt_range _).imp fun h => ?_)
  omega

theorem asI32_of_lt {n : Nat} (h : n < 2 ^ 31) : asI32 n = n := by
  unfold asI32
  omega

/-- `check_circle` succeeds exactly when every pixel enumerated by
`pixels_in_circle` (same scan, same guards) belongs to the set. -/
theorem check_circle_eq_true_iff (s : Finset Pixel) (cx cy r : Nat) :
    check_circle s cx cy r = true ↔ ∀ p ∈ pixels_in_circle cx cy r, p ∈ s := by
  simp only [check_circle, pixels_in_circle, List.all_eq_true, List.mem_flatMap,
    List.mem_filterMap]
  constructor
  · rintro h p ⟨dy, hdy, dx, hdx, heq⟩
    have h2 := h dy hdy dx hdx
    split_ifs at heq h2 with h3 h4
    all_goals first
      | exact Option.noConfusion heq
      | · simp only [Option.some.injEq] at heq
          subst heq
          exact of_decide_eq_true h2
  · intro h dy hdy dx hdx
    split_ifs with h3 h4
    all_goals first
      | rfl
      | exact decide_eq_true (h _ ⟨dy, hdy, dx, hdx, by rw [if_pos h3, if_neg h4]⟩)

/-- Membership characterisation of `pixels_in_circle`, on the domain where the
`u32 → i32` casts are value-preserving (which covers every call the program
makes: image coordinates and `r ≤ MAX_RADIUS`). -/
theorem mem_pixels_in_circle {cx cy r : Nat} (hx : cx + r < 2 ^ 31) (hy : cy + r < 2 ^ 31)
    (p : Pixel) :
    p ∈ pixels_in_circle cx cy r ↔
      ((p.x : ℤ) - cx) ^ 2 + ((p.y : ℤ) - cy) ^ 2 ≤ (r : ℤ) ^ 2 := by
  obtain ⟨px, py⟩ := p
  have hr : r < 2 ^ 31 := by omega
  unfold pixels_in_circle
  rw [asI32_of_lt hr, asI32_of_lt (show cx < 2 ^ 31 by omega),
    asI32_of_lt (show cy < 2 ^ 31 by omega)]
  simp only [List.mem_flatMap, List.mem_filterMap, mem_intRange]
  constructor
  · rintro ⟨dy, ⟨hdy1, hdy2⟩, dx, ⟨hdx1, hdx2⟩, heq⟩
    split_ifs at heq with h1 h2
    all_goals first
      | exact Option.noConfusion heq
      | · simp only [Option.some.injEq, Pixel.mk.injEq] at heq
          obtain ⟨hpx, hpy⟩ := heq
          push_neg at h2
          obtain ⟨h2x, h2y⟩ := h2
          have ex : (px : ℤ) = (cx : ℤ) + dx := by omega
          have ey : (py : ℤ) = (cy : ℤ) + dy := by omega
          rw [ex, ey]
          ring_nf
          nlinarith [h1]
  · intro hle
    have h1 : ((px : ℤ) - cx) ^ 2 ≤ (r : ℤ) ^ 2 := by nlinarith [sq_nonneg ((py : ℤ) - cy)]
    have h2 : ((py : ℤ) - cy) ^ 2 ≤ (r : ℤ) ^ 2 := by nlinarith [sq_nonneg ((px : ℤ) - cx)]
    obtain ⟨hx1, hx2⟩ := abs_le_of_sq_le_sq' h1 (by positivity)
    obtain ⟨hy1, hy2⟩ := abs_le_of_sq_le_sq' h2 (by positivity)
    refine ⟨(py : ℤ) - cy, ⟨by omega, by omega⟩, (px : ℤ) - cx, ⟨by omega, by omega⟩, ?_⟩
    have hcond : ((px : ℤ) - cx) * ((px : ℤ) - cx) + ((py : ℤ) - cy) * ((py : ℤ) - cy)
        ≤ (r : ℤ) * r := by nlinarith [hle]
    have hguard : ¬((cx : ℤ) + ((px : ℤ) - cx) < 0 ∨ (cy : ℤ) + ((py : ℤ) - cy) < 0) := by
      push_neg
      omega
    rw [if_pos hcond, if_neg hguard]
    simp only [Option.some.injEq, Pixel.mk.injEq]
    omega

/-- The centre always belongs to its own disc enumeration (cast-preserving domain). -/
theorem center_mem_pixels_in_circle {cx cy r : Nat} (hx : cx + r < 2 ^ 31)
    (hy : cy + r < 2 ^ 31) : Pixel.mk cx cy ∈ pixels_in_circle cx cy r := by
  rw [mem_pixels_in_circle hx hy]
  simp

/-- What the inner body of the `pixels_in_circle` scan emits: the pixel at
offset `(dx, dy)` from the centre, provided both coordinates are nonnegative. -/
theorem pic_emit {cx cy : Nat} {rr dx dy : Int} {p : Pixel}
    (h : (if dx * dx + dy * dy ≤ rr * rr then
            if (cx : ℤ) + dx < 0 ∨ (cy : ℤ) + dy < 0 then none
            else some (Pixel.mk ((cx : ℤ) + dx).toNat ((cy : ℤ) + dy).toNat)
          else none) = some p) :
    0 ≤ (cx : ℤ) + dx ∧ 0 ≤ (cy : ℤ) + dy ∧
      p.x = ((cx : ℤ) + dx).toNat ∧ p.y = ((cy : ℤ) + dy).toNat := by
  split_ifs at h with h1 h2
  all_goals first
    | exact Option.noConfusion h
    | · push_neg at h2
        simp only [Option.some.injEq] at h
        subst h
        exact ⟨h2.1, h2.2, rfl, rfl⟩

/-- The scan order of `pixels_in_circle` is row-major: `y` increases across
rows and `x` increases within a row (cast-preserving domain). -/
theorem pixels_in_circle_pairwise {cx cy r : Nat} (hx : cx + r < 2 ^ 31)
    (hy : cy + r < 2 ^ 31) : (pixels_in_circle cx cy r).Pairwise rowMajorLt := by
  have hr : r < 2 ^ 31 := by omega
  unfold pixels_in_circle
  rw [asI32_of_lt hr, asI32_of_lt (show cx < 2 ^ 31 by omega),
    asI32_of_lt (show cy < 2 ^ 31 by omega)]
  rw [List.flatMap_def, List.pairwise_flatten]
  constructor
  · intro row hrow
    rw [List.mem_map] at hrow
    obtain ⟨dy, _, rfl⟩ := hrow
    refine List.Pairwise.filterMap _ ?_ (intRange_pairwise _ _)
    intro dx1 dx2 hlt p1 hp1 p2 hp2
    obtain ⟨ha1, hb1, he1, hf1⟩ := pic_emit hp1
    obtain ⟨ha2, hb2, he2, hf2⟩ := pic_emit hp2
    right
    constructor
    · omega
    · omega
  · rw [List.pairwise_map]
    refine (intRange_pairwise _ _).imp ?_
    intro dy1 dy2 hlt p1 hp1 p2 hp2
    rw [List.mem_filterMap] at hp1 hp2
    obtain ⟨dx1, _, he1⟩ := hp1
    obtain ⟨dx2, _, he2⟩ := hp2
    obtain ⟨ha1, hb1, hc1, hd1⟩ := pic_emit he1
    obtain ⟨ha2, hb2, hc2, hd2⟩ := pic_emit he2
    left
    omega

/-- With radius `0` the scan emits exactly the centre pixel (cast-preserving
domain). -/
theorem pixels_in_circle_zero {cx cy : Nat} (hx : cx < 2 ^ 31) (hy : cy < 2 ^ 31) :
    pixels_in_circle cx cy 0 = [Pixel.mk cx cy] := by
  unfold pixels_in_circle
  rw [show asI32 0 = 0 by decide, asI32_of_lt hx, asI32_of_lt hy,
    show intRange (-(0 : Int)) 0 = [0] by decide]
  simp only [List.flatMap_cons, List.flatMap_nil, List.filterMap_cons, List.filterMap_nil]
  rw [if_pos (by norm_num), if_neg (by push_neg; omega)]
  have hcx : ((cx : ℤ) + 0).toNat = cx := by omega
  have hcy : ((cy : ℤ) + 0).toNat = cy := by omega
  simp [hcx, hcy]

/-- Characterisation of the radius-growth loop over a block of consecutive
radii `a, a+1, …, a+n-1`: some prefix of length `k` passes `check_circle`,
the result is the last passing radius (or the initial value `cur` when none
passes), and the radius right after the prefix fails unless the block is
exhausted. -/
theorem fbcLoop_spec (s : Finset Pixel) (cx cy : Nat) :
    ∀ n a cur : Nat, ∃ k, k ≤ n ∧
      fbcLoop s cx cy (List.range' a n) cur = (if k = 0 then cur else a + k - 1) ∧
      (∀ t, a ≤ t → t < a + k → check_circle s cx cy t = true) ∧
      (k < n → check_circle s cx cy (a + k) = false) := by
  intro n
  induction n with
  | zero =>
    intro a cur
    exact ⟨0, Nat.le_refl 0, by simp [fbcLoop], fun t h1 h2 => by omega, fun h => by omega⟩
  | succ m ih =>
    intro a cur
    by_cases hc : check_circle s cx cy a = true
    · obtain ⟨k', hk', heq, hall, hfail⟩ := ih (a + 1) a
      refine ⟨k' + 1, by omega, ?_, ?_, ?_⟩
      · rw [List.range'_succ]
        have hstep : fbcLoop s cx cy (a :: List.range' (a + 1) m) cur
            = fbcLoop s cx cy (List.range' (a + 1) m) a := by
          simp [fbcLoop, hc]
        rw [hstep, heq]
        by_cases hk0 : k' = 0
        · rw [if_pos hk0, if_neg (show ¬k' + 1 = 0 by omega)]
          omega
        · rw [if_neg hk0, if_neg (show ¬k' + 1 = 0 by omega)]
          omega
      · intro t h1 h2
        rcases Nat.eq_or_lt_of_le h1 with rfl | h1'
        · exact hc
        · exact hall t (by omega) (by omega)
      · intro hlt
        have harith : a + (k' + 1) = a + 1 + k' := by omega
        rw [harith]
        exact hfail (by omega)
    · refine ⟨0, by omega, ?_, fun t h1 h2 => by omega, fun _ => ?_⟩
      · rw [List.range'_succ]
        simp [fbcLoop, hc]
      · simp only [Nat.add_zero]
        exact Bool.not_eq_true _ ▸ hc

/-- Full characterisation of `find_biggest_circle` for `3 ≤ maxR`: the centre
is the seed; if the disc of radius 3 already fails the radius stays 1;
otherwise the radius is the last member of `3..=maxR` whose whole prefix of
radii passes `check_circle`, and the next radius fails unless `maxR` was hit. -/
theorem fbc_spec (s : Finset Pixel) (cx cy maxR : Nat) (hmax : 3 ≤ maxR) :
    (find_biggest_circle s cx cy maxR).x = cx ∧
    (find_biggest_circle s cx cy maxR).y = cy ∧
    (check_circle s cx cy 3 = false → (find_biggest_circle s cx cy maxR).r = 1) ∧
    (check_circle s cx cy 3 = true →
      3 ≤ (find_biggest_circle s cx cy maxR).r ∧
      (find_biggest_circle s cx cy maxR).r ≤ maxR ∧
      (∀ t, 3 ≤ t → t ≤ (find_biggest_circle s cx cy maxR).r →
        check_circle s cx cy t = true) ∧
      ((find_biggest_circle s cx cy maxR).r < maxR →
        check_circle s cx cy ((find_biggest_circle s cx cy maxR).r + 1) = false)) := by
  obtain ⟨k, hk, heq, hall, hfail⟩ := fbcLoop_spec s cx cy (maxR - 2) 3 1
  have hres : (find_biggest_circle s cx cy maxR).r
      = fbcLoop s cx cy (List.range' 3 (maxR - 2)) 1 := rfl
  refine ⟨rfl, rfl, ?_, ?_⟩
  · intro hc
    have hk0 : k = 0 := by
      by_contra h0
      have := hall 3 (Nat.le_refl 3) (by omega)
      rw [hc] at this
      exact Bool.noConfusion this
    rw [hres, heq, if_pos hk0]
  · intro hc
    have hk1 : k ≠ 0 := by
      intro h0
      have := hfail (by omega)
      rw [h0, Nat.add_zero, hc] at this
      exact Bool.noConfusion this
    have hreq : (find_biggest_circle s cx cy maxR).r = 3 + k - 1 := by
      rw [hres, heq, if_neg hk1]
    refine ⟨by omega, by omega, ?_, ?_⟩
    · intro t h1 h2
      exact hall t h1 (by omega)
    · intro hlt
      have harith : (find_biggest_circle s cx cy maxR).r + 1 = 3 + k := by omega
      rw [harith]
      exact hfail (by omega)

/-! ## Lemmas about one iteration of the packing loop -/

theorem packStep_reject (select : Finset Pixel → Pixel) (mask : Finset Pixel)
    (circles : List Circle)
    (h : (find_biggest_circle mask (select mask).x (select mask).y MAX_RADIUS).r < 3) :
    packStep select mask circles = (mask.erase (select mask), circles) := by
  simp only [packStep]
  rw [if_pos h]

theorem packStep_accept (select : Finset Pixel → Pixel) (mask : Finset Pixel)
    (circles : List Circle)
    (h : 3 ≤ (find_biggest_circle mask (select mask).x (select mask).y MAX_RADIUS).r) :
    packStep select mask circles
      = (mask \ (pixels_in_circle (select mask).x (select mask).y
            (find_biggest_circle mask (select mask).x (select mask).y MAX_RADIUS).r).toFinset,
         circles ++ [find_biggest_circle mask (select mask).x (select mask).y MAX_RADIUS]) := by
  simp only [packStep]
  rw [if_neg (by omega)]
  rfl

theorem packStep_reject_fst (select : Finset Pixel → Pixel) (mask : Finset Pixel)
    (circles : List Circle)
    (h : (find_biggest_circle mask (select mask).x (select mask).y MAX_RADIUS).r < 3) :
    (packStep select mask circles).1 = mask.erase (select mask) :=
  congrArg Prod.fst (packStep_reject select mask circles h)

theorem packStep_reject_snd (select : Finset Pixel → Pixel) (mask : Finset Pixel)
    (circles : List Circle)
    (h : (find_biggest_circle mask (select mask).x (select mask).y MAX_RADIUS).r < 3) :
    (packStep select mask circles).2 = circles :=
  congrArg Prod.snd (packStep_reject select mask circles h)

theorem packStep_accept_fst (select : Finset Pixel → Pixel) (mask : Finset Pixel)
    (circles : List Circle)
    (h : 3 ≤ (find_biggest_circle mask (select mask).x (select mask).y MAX_RADIUS).r) :
    (packStep select mask circles).1
      = mask \ (pixels_in_circle (select mask).x (select mask).y
          (find_biggest_circle mask (select mask).x (select mask).y MAX_RADIUS).r).toFinset :=
  congrArg Prod.fst (packStep_accept select mask circles h)

theorem packStep_accept_snd (select : Finset Pixel → Pixel) (mask : Finset Pixel)
    (circles : List Circle)
    (h : 3 ≤ (find_biggest_circle mask (select mask).x (select mask).y MAX_RADIUS).r) :
    (packStep select mask circles).2
      = circles ++ [find_biggest_circle mask (select mask).x (select mask).y MAX_RADIUS] :=
  congrArg Prod.snd (packStep_accept select mask circles h)

theorem packStep_fst_subset (select : Finset Pixel → Pixel) (mask : Finset Pixel)
    (circles : List Circle) : (packStep select mask circles).1 ⊆ mask := by
  by_cases h : (find_biggest_circle mask (select mask).x (select mask).y MAX_RADIUS).r < 3
  · rw [packStep_reject select mask circles h]
    exact Finset.erase_subset _ _
  · rw [packStep_accept select mask circles (by omega)]
    exact Finset.sdiff_subset

/-- A circle the loop accepts (radius at least 3) passed `check_circle` at
radius 3; in particular the seed pixel belongs to the mask. -/
theorem accept_check3 (mask : Finset Pixel) (cx cy : Nat)
    (h : 3 ≤ (find_biggest_circle mask cx cy MAX_RADIUS).r) :
    check_circle mask cx cy 3 = true := by
  cases hc : check_circle mask cx cy 3 with
  | true => rfl
  | false =>
    have h1 := (fbc_spec mask cx cy MAX_RADIUS (by norm_num [MAX_RADIUS])).2.2.1 hc
    omega

theorem accept_radius_le (mask : Finset Pixel) (cx cy : Nat)
    (h : 3 ≤ (find_biggest_circle mask cx cy MAX_RADIUS).r) :
    (find_biggest_circle mask cx cy MAX_RADIUS).r ≤ MAX_RADIUS :=
  ((fbc_spec mask cx cy MAX_RADIUS (by norm_num [MAX_RADIUS])).2.2.2
    (accept_check3 mask cx cy h)).2.1

/-- On a seed whose coordinates leave room for `MAX_RADIUS` below `2^31`
(every pixel of a decodable image does), one packing iteration removes at
least one pixel from the mask: the seed itself in both branches. -/
theorem packStep_card_lt (select : Finset Pixel → Pixel) (mask : Finset Pixel)
    (circles : List Circle) (hsel : select mask ∈ mask)
    (hx : (select mask).x + MAX_RADIUS < 2 ^ 31)
    (hy : (select mask).y + MAX_RADIUS < 2 ^ 31) :
    ((packStep select mask circles).1).card < mask.card := by
  by_cases h : (find_biggest_circle mask (select mask).x (select mask).y MAX_RADIUS).r < 3
  · rw [packStep_reject select mask circles h]
    exact Finset.card_erase_lt_of_mem hsel
  · push_neg at h
    rw [packStep_accept select mask circles h]
    apply Finset.card_lt_card
    rw [Finset.ssubset_def]
    refine ⟨Finset.sdiff_subset, fun hsub => ?_⟩
    have hr := accept_radius_le mask (select mask).x (select mask).y h
    have hmem : select mask ∈ (pixels_in_circle (select mask).x (select mask).y
        (find_biggest_circle mask (select mask).x (select mask).y MAX_RADIUS).r).toFinset := by
      rw [List.mem_toFinset]
      exact center_mem_pixels_in_circle (by omega) (by omega)
    have hin := hsub hsel
    rw [Finset.mem_sdiff] at hin
    exact hin.2 hmem

/-! ## Lemmas about the whole packing loop

`check_circle` and `pixels_in_circle` are made locally irreducible in this
section: the lemmas here treat them through the lemmas above only, and this
keeps definitional unfolding from descending into their `2^31` cast
arithmetic. -/

section AbstractLoopLemmas

attribute [local irreducible] check_circle pixels_in_circle

theorem packLoop_fst_empty (select : Finset Pixel → Pixel)
    (hselAll : ∀ m : Finset Pixel, m.Nonempty → select m ∈ m) :
    ∀ (fuel : Nat) (mask : Finset Pixel) (circles : List Circle),
      (∀ p ∈ mask, p.x + MAX_RADIUS < 2 ^ 31 ∧ p.y + MAX_RADIUS < 2 ^ 31) →
      mask.card ≤ fuel → (packLoop select fuel mask circles).1 = ∅ := by
  intro fuel
  induction fuel with
  | zero =>
    intro mask circles hb hcard
    have hm : mask = ∅ := Finset.card_eq_zero.mp (by omega)
    simp [packLoop, hm]
  | succ n ih =>
    intro mask circles hb hcard
    by_cases hm : mask = ∅
    · simp [packLoop, hm]
    · simp only [packLoop]
      rw [if_neg hm]
      have hne : mask.Nonempty := Finset.nonempty_iff_ne_empty.mpr hm
      have hsel := hselAll mask hne
      apply ih
      · intro p hp
        exact hb p (packStep_fst_subset select mask circles hp)
      · have hlt := packStep_card_lt select mask circles hsel (hb _ hsel).1 (hb _ hsel).2
        omega

theorem packLoop_radius_inv (select : Finset Pixel → Pixel) :
    ∀ (fuel : Nat) (mask : Finset Pixel) (circles : List Circle),
      (∀ c ∈ circles, 3 ≤ c.r) →
      ∀ c ∈ (packLoop select fuel mask circles).2, 3 ≤ c.r := by
  intro fuel
  induction fuel with
  | zero =>
    intro mask circles h c hc
    exact h c hc
  | succ n ih =>
    intro mask circles h c hc
    by_cases hm : mask = ∅
    · simp only [packLoop, if_pos hm] at hc
      exact h c hc
    · simp only [packLoop, if_neg hm] at hc
      refine ih _ _ ?_ c hc
      intro c' hc'
      by_cases hr : (find_biggest_circle mask (select mask).x (select mask).y MAX_RADIUS).r < 3
      · rw [packStep_reject select mask circles hr] at hc'
        exact h c' hc'
      · push_neg at hr
        rw [packStep_accept select mask circles hr] at hc'
        rcases List.mem_append.mp hc' with h1 | h1
        · exact h c' h1
        · rw [List.mem_singleton.mp h1]
          exact hr

end AbstractLoopLemmas

/-- The spec's §4.2 selector contract holds for `selectMin`: it returns a
member of any nonempty set. -/
theorem selectMin_mem (m : Finset Pixel) (h : m.Nonempty) : selectMin m ∈ m := by
  rw [selectMin, dif_pos h]
  exact Finset.min'_mem m h

/-! ## Claim theorems -/

/-- C3: `find_biggest_circle(set, cx, cy, maxR)` tries radii `3, 4, …, maxR`
in increasing order calling `check_circle` at each step, stops at the first
radius where `check_circle` fails, and returns the last radius that passed
(every radius up to it passed, and the next one fails unless `maxR` was
reached); if the test at radius 3 already fails, the returned radius is 1.
The function is total (it always returns a `Circle`). -/
theorem claim3_growth_stopping (s : Finset Pixel) (cx cy maxR : Nat) (hmax : 3 ≤ maxR) :
    (check_circle s cx cy 3 = false → (find_biggest_circle s cx cy maxR).r = 1) ∧
    (check_circle s cx cy 3 = true →
      3 ≤ (find_biggest_circle s cx cy maxR).r ∧
      (find_biggest_circle s cx cy maxR).r ≤ maxR ∧
      (∀ t, 3 ≤ t → t ≤ (find_biggest_circle s cx cy maxR).r →
        check_circle s cx cy t = true) ∧
      ((find_biggest_circle s cx cy maxR).r < maxR →
        check_circle s cx cy ((find_biggest_circle s cx cy maxR).r + 1) = false)) :=
  ⟨(fbc_spec s cx cy maxR hmax).2.2.1, (fbc_spec s cx cy maxR hmax).2.2.2⟩

/-- C4: `check_circle(set, cx, cy, r)` returns `true` iff every coordinate
produced by `pixels_in_circle(cx, cy, r)` is a member of `set`; negative
coordinates are never tested (they are skipped by the shared scan), while
coordinates beyond any width/height are tested against the set like any other
(no bound appears in either function). -/
theorem claim4_check_circle_iff (s : Finset Pixel) (cx cy r : Nat) :
    check_circle s cx cy r = true ↔ ∀ p ∈ pixels_in_circle cx cy r, p ∈ s :=
  check_circle_eq_true_iff s cx cy r

/-- C5 (amended): on the domain where the `u32 → i32` casts preserve values
and no `i32` arithmetic can overflow (`cx + r < 2^31`, `cy + r < 2^31`,
`r ≤ 32767` — every call the program makes satisfies this),
`pixels_in_circle(cx, cy, r)` returns exactly the coordinates `(x, y)` with
`x, y ≥ 0` and `(x-cx)² + (y-cy)² ≤ r²`, in row-major order; `r = 0` yields
exactly the centre, and no returned coordinate has a negative component.
The unrestricted claim is false: see the counterexample at `cx = 2^31`. -/
theorem claim5_pixels_in_circle_spec (cx cy r : Nat)
    (hx : cx + r < 2 ^ 31) (hy : cy + r < 2 ^ 31) (hsq : r ≤ 32767) :
    (∀ p : Pixel, p ∈ pixels_in_circle cx cy r ↔
        ((p.x : ℤ) - cx) ^ 2 + ((p.y : ℤ) - cy) ^ 2 ≤ (r : ℤ) ^ 2) ∧
    (pixels_in_circle cx cy r).Pairwise rowMajorLt ∧
    (∀ p ∈ pixels_in_circle cx cy r, 0 ≤ (p.x : ℤ) ∧ 0 ≤ (p.y : ℤ)) ∧
    (r = 0 → pixels_in_circle cx cy r = [Pixel.mk cx cy]) := by
  refine ⟨fun p => mem_pixels_in_circle hx hy p, pixels_in_circle_pairwise hx hy,
    fun p _ => ⟨Int.natCast_nonneg _, Int.natCast_nonneg _⟩, ?_⟩
  intro h0
  subst h0
  exact pixels_in_circle_zero (by omega) (by omega)

/-- C8: the printed line is `[` ++ the `[x,y,r]` triples joined by commas ++
`],` (trailing comma included), with each printed `y` equal to
`height - y_internal` and `x`, `r` unchanged — stated as equality with
`specOutput`, the format written from the spec's words — and on the two
concrete examples of the claim: `[{x:1,y:2,r:3}]` at height 10 prints
`[[1,8,3]],` and the empty list prints `[],`. -/
theorem claim8_output_format (height : Nat) (circles : List Circle)
    (hy : ∀ c ∈ circles, c.y ≤ height) :
    formatOutput height circles = specOutput height circles ∧
    formatOutput 10 [Circle.mk 1 2 3] = "[[1,8,3]]," ∧
    formatOutput height [] = "[]," := by
  refine ⟨?_, by decide, rfl⟩
  simp only [formatOutput, specOutput, List.map_map]
  rfl

/-- C9: on the empty foreground set the packing loop finishes immediately with
zero circles for any selector and fuel, and the output is `[],`; but the
debug-artifact aggregation (`circles.iter().map(..).reduce(..).unwrap()`,
lines 160–173 and 202–215) has no value on the empty circle list — Rust's
`reduce` returns `None` there and `unwrap` panics, contradicting the claim
that the program never panics when the debug flag is set. -/
theorem claim9_empty_set_debug_unwrap (select : Finset Pixel → Pixel)
    (fuel height : Nat) :
    (packLoop select fuel (∅ : Finset Pixel) []).1 = ∅ ∧
    (packLoop select fuel (∅ : Finset Pixel) []).2 = [] ∧
    formatOutput height [] = "[]," ∧
    debugCoverage [] = none := by
  refine ⟨?_, ?_, rfl, rfl⟩
  · cases fuel with
    | zero => rfl
    | succ n => simp [packLoop]
  · cases fuel with
    | zero => rfl
    | succ n => simp [packLoop]

/-- C10: for `maxR ≥ 3` the returned circle is centred exactly at the seed,
and its radius is either exactly 1 or in `[3, maxR]`; a radius of 2, or one
above `maxR`, is impossible. -/
theorem claim10_center_and_radius_range (s : Finset Pixel) (cx cy maxR : Nat)
    (hmax : 3 ≤ maxR) :
    (find_biggest_circle s cx cy maxR).x = cx ∧
    (find_biggest_circle s cx cy maxR).y = cy ∧
    ((find_biggest_circle s cx cy maxR).r = 1 ∨
      (3 ≤ (find_biggest_circle s cx cy maxR).r ∧
        (find_biggest_circle s cx cy maxR).r ≤ maxR)) := by
  obtain ⟨hx, hy, h1, h2⟩ := fbc_spec s cx cy maxR hmax
  refine ⟨hx, hy, ?_⟩
  cases hc : check_circle s cx cy 3 with
  | false => exact Or.inl (h1 hc)
  | true => exact Or.inr ⟨(h2 hc).1, (h2 hc).2.1⟩

section ClaimProofsAbstract

attribute [local irreducible] check_circle pixels_in_circle

/-- C1: every circle appended to the output list by a packing-loop iteration
passed `check_circle` on the foreground set as it was at the moment of growth
(the pre-removal mask) at its radius; `check_circle` fails at `radius + 1`
unless the radius equals `MAX_RADIUS` (25); and every pixel of the disc
enumeration of that radius (negative coordinates excluded by construction)
was a member of the mask at that moment. -/
theorem claim1_accepted_circle_valid (select : Finset Pixel → Pixel) (mask : Finset Pixel)
    (circles : List Circle) (c : Circle)
    (happ : (packStep select mask circles).2 = circles ++ [c]) :
    check_circle mask c.x c.y c.r = true ∧
    (c.r = MAX_RADIUS ∨ check_circle mask c.x c.y (c.r + 1) = false) ∧
    (∀ p ∈ pixels_in_circle c.x c.y c.r, p ∈ mask) := by
  by_cases h : (find_biggest_circle mask (select mask).x (select mask).y MAX_RADIUS).r < 3
  · rw [packStep_reject_snd select mask circles h] at happ
    have hlen := congrArg List.length happ
    simp only [List.length_append, List.length_singleton] at hlen
    omega
  · push_neg at h
    rw [packStep_accept_snd select mask circles h] at happ
    have hfc : find_biggest_circle mask (select mask).x (select mask).y MAX_RADIUS = c := by
      have h2 := List.append_cancel_left happ
      simpa using h2
    subst hfc
    have hc3 := accept_check3 mask (select mask).x (select mask).y h
    obtain ⟨hx, hy, _, hsp⟩ :=
      fbc_spec mask (select mask).x (select mask).y MAX_RADIUS (by norm_num [MAX_RADIUS])
    obtain ⟨hge, hle, hall, hnext⟩ := hsp hc3
    rw [hx, hy]
    refine ⟨hall _ hge (Nat.le_refl _), ?_, ?_⟩
    · rcases Nat.lt_or_ge
          (find_biggest_circle mask (select mask).x (select mask).y MAX_RADIUS).r
          MAX_RADIUS with hlt | hge2
      · exact Or.inr (hnext hlt)
      · exact Or.inl (by omega)
    · intro p hp
      exact (check_circle_eq_true_iff mask _ _ _).mp (hall _ hge (Nat.le_refl _)) p hp

/-- C2 (amended): for every seed selector satisfying the spec's §4.2 contract
(it returns a member of any nonempty set — the embedded stand-in for the
external `compute_edt` kernel), and every initial foreground set whose
coordinates leave room for `MAX_RADIUS` below `2^31` (any set built from a
decodable image does), the packing loop never grows the set, each iteration
removes at least one pixel (the seed on rejection, a disc containing the
centre on acceptance), and the loop empties the set within `|mask|`
iterations.  The unrestricted claim is false: see the counterexample. -/
theorem claim2_packing_terminates (select : Finset Pixel → Pixel)
    (hsel : ∀ m : Finset Pixel, m.Nonempty → select m ∈ m)
    (mask : Finset Pixel)
    (hb : ∀ p ∈ mask, p.x + MAX_RADIUS < 2 ^ 31 ∧ p.y + MAX_RADIUS < 2 ^ 31)
    (circles : List Circle) :
    (∀ p ∈ (packStep select mask circles).1, p ∈ mask) ∧
    (mask.Nonempty → ((packStep select mask circles).1).card < mask.card) ∧
    (packLoop select mask.card mask circles).1 = ∅ := by
  refine ⟨?_, ?_, ?_⟩
  · intro p hp
    exact packStep_fst_subset select mask circles hp
  · intro hne
    exact packStep_card_lt select mask circles (hsel mask hne)
      (hb _ (hsel mask hne)).1 (hb _ (hsel mask hne)).2
  · exact packLoop_fst_empty select hsel mask.card mask circles hb (Nat.le_refl _)

/-- C6: one packing iteration changes state in exactly one of two ways: on
rejection (grown radius below 3) the circle list is unchanged and exactly the
seed leaves the mask; on acceptance the grown circle is appended and exactly
the pixels of `pixels_in_circle(x, y, r)` at the accepted radius (overlap
margin 0) leave the mask — membership of every other pixel is preserved. -/
theorem claim6_step_frame (select : Finset Pixel → Pixel) (mask : Finset Pixel)
    (circles : List Circle) :
    ((find_biggest_circle mask (select mask).x (select mask).y MAX_RADIUS).r < 3 →
      (packStep select mask circles).2 = circles ∧
      ∀ q : Pixel, q ∈ (packStep select mask circles).1 ↔
        q ∈ mask ∧ q ≠ select mask) ∧
    (3 ≤ (find_biggest_circle mask (select mask).x (select mask).y MAX_RADIUS).r →
      (packStep select mask circles).2
          = circles ++ [find_biggest_circle mask (select mask).x (select mask).y MAX_RADIUS] ∧
      ∀ q : Pixel, q ∈ (packStep select mask circles).1 ↔
        q ∈ mask ∧ q ∉ pixels_in_circle (select mask).x (select mask).y
          (find_biggest_circle mask (select mask).x (select mask).y MAX_RADIUS).r) := by
  constructor
  · intro h
    refine ⟨packStep_reject_snd select mask circles h, fun q => ?_⟩
    rw [packStep_reject_fst select mask circles h, Finset.mem_erase]
    exact and_comm
  · intro h
    refine ⟨packStep_accept_snd select mask circles h, fun q => ?_⟩
    rw [packStep_accept_fst select mask circles h, Finset.mem_sdiff, List.mem_toFinset]

/-- C7: every circle in the final output list of the packing loop (started
from the empty list, as `main` does) has radius at least 3, the minimum-radius
threshold: a grown circle with radius below 3 is never appended. -/
theorem claim7_min_radius (select : Finset Pixel → Pixel) (fuel : Nat)
    (mask : Finset Pixel) (c : Circle)
    (hc : c ∈ (packLoop select fuel mask []).2) : 3 ≤ c.r :=
  packLoop_radius_inv select fuel mask []
    (fun c' hc' => absurd hc' (List.not_mem_nil c')) c hc

end ClaimProofsAbstract

/-! ## Witnesses and counterexamples -/

/-- Witness for C1 on the 4×4 patch: the step accepts the circle `(0,0,3)`. -/
theorem claim1_witness :
    check_circle grid4 (Circle.mk 0 0 3).x (Circle.mk 0 0 3).y (Circle.mk 0 0 3).r = true ∧
    ((Circle.mk 0 0 3).r = MAX_RADIUS ∨
      check_circle grid4 (Circle.mk 0 0 3).x (Circle.mk 0 0 3).y
        ((Circle.mk 0 0 3).r + 1) = false) ∧
    Pixel.mk 1 2 ∈ grid4 := by
  have h := claim1_accepted_circle_valid (fun _ => Pixel.mk 0 0) grid4 [] (Circle.mk 0 0 3)
    (by decide)
  exact ⟨h.1, h.2.1, h.2.2 (Pixel.mk 1 2) (by decide)⟩

/-- Witness for C2: a singleton in-range mask is emptied in one iteration. -/
theorem claim2_witness :
    (packLoop selectMin ({Pixel.mk 0 0} : Finset Pixel).card {Pixel.mk 0 0} []).1 = ∅ :=
  (claim2_packing_terminates selectMin selectMin_mem {Pixel.mk 0 0} (by decide) []).2.2

set_option maxRecDepth 40000 in
/-- Counterexample to C2 as stated (over every initial foreground set): on
the singleton `{(2^31 + 25, 0)}` the wrapped `as i32` cast makes every disc
coordinate negative, so every `check_circle` passes vacuously, the circle is
accepted, `pixels_in_circle` is empty, nothing is removed, and the loop has
not emptied the set within `|mask| = 1` iterations (nor ever).  The seed
selector is `selectMin`, which satisfies the §4.2 membership contract
(`selectMin_mem`), so the selector is not the culprit. -/
theorem claim2_counterexample :
    (packLoop selectMin ({Pixel.mk 2147483673 0} : Finset Pixel).card
        {Pixel.mk 2147483673 0} []).1 ≠ ∅ := by decide

/-- Witness for C3 on the 4×4 patch: radius 3 passes, so the result is in
`[3, 25]`. -/
theorem claim3_witness :
    3 ≤ (find_biggest_circle grid4 0 0 25).r ∧ (find_biggest_circle grid4 0 0 25).r ≤ 25 := by
  have h := (claim3_growth_stopping grid4 0 0 25 (by norm_num)).2 (by decide)
  exact ⟨h.1, h.2.1⟩

/-- Witness for C5 at centre `(2,2)`: membership of `(3,2)` for radius 2, and
the radius-0 singleton. -/
theorem claim5_witness :
    (Pixel.mk 3 2 ∈ pixels_in_circle 2 2 2 ↔
      (((Pixel.mk 3 2).x : ℤ) - 2) ^ 2 + (((Pixel.mk 3 2).y : ℤ) - 2) ^ 2 ≤ ((2 : Nat) : ℤ) ^ 2) ∧
    pixels_in_circle 2 2 0 = [Pixel.mk 2 2] := by
  constructor
  · exact (claim5_pixels_in_circle_spec 2 2 2 (by norm_num) (by norm_num) (by norm_num)).1
      (Pixel.mk 3 2)
  · exact (claim5_pixels_in_circle_spec 2 2 0 (by norm_num) (by norm_num) (by norm_num)).2.2.2
      rfl

/-- Counterexample to C5 as stated (over every centre): at `cx = 2^31` the
wrapping `u32 → i32` cast makes the centre negative, so the radius-0 disc
enumeration is empty instead of the singleton `[(2^31, 0)]`. -/
theorem claim5_counterexample :
    pixels_in_circle 2147483648 0 0 = [] ∧
    Pixel.mk 2147483648 0 ∉ pixels_in_circle 2147483648 0 0 := by
  constructor
  · decide
  · decide

/-- Witness for C6 on the 4×4 patch, acceptance branch, checked at pixel
`(3,3)`. -/
theorem claim6_witness :
    (packStep (fun _ => Pixel.mk 0 0) grid4 []).2
        = [] ++ [find_biggest_circle grid4 0 0 MAX_RADIUS] ∧
    (Pixel.mk 3 3 ∈ (packStep (fun _ => Pixel.mk 0 0) grid4 []).1 ↔
      Pixel.mk 3 3 ∈ grid4 ∧ Pixel.mk 3 3 ∉ pixels_in_circle 0 0
        (find_biggest_circle grid4 0 0 MAX_RADIUS).r) := by
  have h := (claim6_step_frame (fun _ => Pixel.mk 0 0) grid4 []).2 (by decide)
  exact ⟨h.1, h.2 (Pixel.mk 3 3)⟩

/-- Witness for C7: the circle produced on the 4×4 patch has radius `3 ≥ 3`. -/
theorem claim7_witness : 3 ≤ (Circle.mk 0 0 3).r :=
  claim7_min_radius (fun _ => Pixel.mk 0 0) 1 grid4 (Circle.mk 0 0 3) (by decide)

/-- Witness for C8 at height 10 with the claim's example circle list. -/
theorem claim8_witness :
    formatOutput 10 [Circle.mk 1 2 3] = specOutput 10 [Circle.mk 1 2 3] ∧
    formatOutput 10 [Circle.mk 1 2 3] = "[[1,8,3]]," ∧
    formatOutput 10 ([] : List Circle) = "[]," :=
  claim8_output_format 10 [Circle.mk 1 2 3] (by decide)

/-- Witness for C10 on the 4×4 patch with `maxR = 25`. -/
theorem claim10_witness :
    (find_biggest_circle grid4 0 0 25).x = 0 ∧ (find_biggest_circle grid4 0 0 25).y = 0 ∧
    ((find_biggest_circle grid4 0 0 25).r = 1 ∨
      (3 ≤ (find_biggest_circle grid4 0 0 25).r ∧
        (find_biggest_circle grid4 0 0 25).r ≤ 25)) :=
  claim10_center_and_radius_range grid4 0 0 25 (by norm_num)

end Mkbubble
